import Mathlib

set_option maxRecDepth 100000

/-!
Verification of the oriented-bounding-box (OBB) post-processing pipeline of
`src/utils/detectOBB.js`: the geometry kernel (inside test, segment
intersection, Sutherland–Hodgman clipping, shoelace area), the rotated IoU,
the greedy rotated NMS, the argmax class decoder and the per-class tally.

Numbers are modelled as exact rationals `ℚ`.  The one place where IEEE float
semantics is observable in the claims — division by zero producing NaN or an
infinity instead of a finite value — is modelled explicitly by the `JsNum`
type and `jsDiv`; everywhere else the source only adds, subtracts, multiplies,
compares and divides by provably nonzero denominators.

A faithfulness note on `clipPolygons`: in the source the running vertex `S`
is a `const` bound once to `inputList[inputList.length - 1]` and never
reassigned inside the inner loop (the classical `S = E` advance of
Sutherland–Hodgman is absent).  The embedding reproduces exactly that.
-/

namespace YoloOBB

/-- A 2-D point `{x, y}` with rational coordinates. -/
structure Point where
  x : ℚ
  y : ℚ
deriving DecidableEq, Repr

/-- The observable values of a JavaScript IEEE-754 number for this pipeline:
a finite value (kept exact as `ℚ`) or one of the non-finite values produced
by division by zero. -/
inductive JsNum where
  | fin : ℚ → JsNum
  | posInf : JsNum
  | negInf : JsNum
  | nan : JsNum
deriving DecidableEq, Repr

/-- JavaScript division `a / b` on numbers: finite quotient when `b ≠ 0`,
`+∞`, `-∞` or `NaN` when `b = 0` depending on the sign of `a`. -/
def jsDiv (a b : ℚ) : JsNum :=
  if b ≠ 0 then .fin (a / b)
  else if 0 < a then .posInf
  else if a < 0 then .negInf
  else .nan

/-- JavaScript comparison `v > t` where `v` may be non-finite:
`NaN > t` is `false`, `+∞ > t` is `true`, `-∞ > t` is `false`. -/
def JsNum.gtQ : JsNum → ℚ → Bool
  | .fin q, t => decide (t < q)
  | .posInf, _ => true
  | .negInf, _ => false
  | .nan, _ => false

/-- `isInside(p, edgeStart, edgeEnd)` from the source: the 2-D cross-product
sign test `(eE.x-eS.x)*(p.y-eS.y) - (eE.y-eS.y)*(p.x-eS.x) >= 0`. -/
def isInside (p eS eE : Point) : Bool :=
  decide (0 ≤ (eE.x - eS.x) * (p.y - eS.y) - (eE.y - eS.y) * (p.x - eS.x))

/-- `computeIntersection(s, e, clipEdgeStart, clipEdgeEnd)` from the source:
the 2×2 determinant line-line intersection formula.  The reciprocal `n3`
is rational division; the denominator is proved nonzero at every call site
reached from `clipPolygons`. -/
def computeIntersection (s e cS cE : Point) : Point :=
  let dcx := cS.x - cE.x
  let dcy := cS.y - cE.y
  let dpx := s.x - e.x
  let dpy := s.y - e.y
  let n1 := cS.x * cE.y - cS.y * cE.x
  let n2 := s.x * e.y - s.y * e.x
  let n3 := 1 / (dcx * dpy - dcy * dpx)
  ⟨(n1 * dpx - n2 * dcx) * n3, (n1 * dpy - n2 * dcy) * n3⟩

/-- The denominator of the reciprocal `n3` inside `computeIntersection`. -/
def intersectionDenom (s e cS cE : Point) : ℚ :=
  (cS.x - cE.x) * (s.y - e.y) - (cS.y - cE.y) * (s.x - e.x)

/-- Body of the inner `for (j ...)` loop of `clipPolygons`: processes one
vertex `E` of the input list against the clip edge `eS → eE`, with `S` the
fixed vertex captured before the loop, appending to the output list. -/
def clipEdgeStep (S eS eE : Point) (out : List Point) (E : Point) : List Point :=
  if isInside E eS eE then
    (if !isInside S eS eE then out ++ [computeIntersection S E eS eE] else out) ++ [E]
  else if isInside S eS eE then
    out ++ [computeIntersection S E eS eE]
  else
    out

/-- One pass of `clipPolygons` over a single clip edge `eS → eE`: `S` is
bound once to the LAST vertex of the input list and — exactly as in the
source, where it is a `const` — never advanced inside the loop. -/
def clipOneEdge (eS eE : Point) (inputList : List Point) : List Point :=
  match inputList.getLast? with
  | none => []
  | some S => inputList.foldl (clipEdgeStep S eS eE) []

/-- `clipPolygons(subjectPolygon, clipPolygon)` from the source: folds the
subject polygon through every directed edge `(clip[i], clip[(i+1) % n])` of
the clip polygon; an empty intermediate list stays empty (the source
`break`s). -/
def clipPolygons (subjectPolygon clipPoly : List Point) : List Point :=
  (clipPoly.zip (clipPoly.rotate 1)).foldl
    (fun outputList edge =>
      if outputList.isEmpty then [] else clipOneEdge edge.1 edge.2 outputList)
    subjectPolygon

/-- `calculatePolygonArea(polygon)` from the source: the absolute shoelace
sum `|Σ (x_i*y_{i+1} - x_{i+1}*y_i)| / 2`, indices mod `n`. -/
def calculatePolygonArea (polygon : List Point) : ℚ :=
  |((polygon.zip (polygon.rotate 1)).foldl
      (fun area q => area + q.1.x * q.2.y - q.2.x * q.1.y) 0)| / 2

/-- The flat 8-number corner array of one rotated box, as four points in the
order produced by `convertToCorners` (top-left, top-right, bottom-right,
bottom-left under zero rotation). -/
structure Quad where
  p1 : Point
  p2 : Point
  p3 : Point
  p4 : Point
deriving DecidableEq, Repr

/-- The corner array read back as the polygon `[{x:c[0],y:c[1]}, …]` built by
the loop at the top of `calculateOBBIoU`. -/
def Quad.toPolygon (q : Quad) : List Point :=
  [q.p1, q.p2, q.p3, q.p4]

/-- `convertToCorners(cx, cy, w, h, angle)` from the source, with the two
trigonometric locals `cosA = Math.cos(angle)`, `sinA = Math.sin(angle)`
taken as parameters (exact rationals at the angles the claims use, e.g.
`cosA = 1, sinA = 0` at angle `0`). -/
def convertToCorners (cx cy w h cosA sinA : ℚ) : Quad :=
  ⟨⟨cx + cosA * (-w/2) - sinA * (-h/2), cy + sinA * (-w/2) + cosA * (-h/2)⟩,
   ⟨cx + cosA * (w/2) - sinA * (-h/2), cy + sinA * (w/2) + cosA * (-h/2)⟩,
   ⟨cx + cosA * (w/2) - sinA * (h/2), cy + sinA * (w/2) + cosA * (h/2)⟩,
   ⟨cx + cosA * (-w/2) - sinA * (h/2), cy + sinA * (-w/2) + cosA * (h/2)⟩⟩

/-- `calculateOBBIoU(box1Corners, box2Corners)` from the source: clip
polygon 1 against polygon 2, return `0` on an empty intersection, otherwise
divide the intersection area by `area1 + area2 - intersectionArea` (the
division is the unguarded JavaScript `/`, hence a `JsNum`). -/
def calculateOBBIoU (box1 box2 : Quad) : JsNum :=
  let polygon1 := box1.toPolygon
  let polygon2 := box2.toPolygon
  let intersection := clipPolygons polygon1 polygon2
  if intersection.length = 0 then .fin 0
  else
    let area1 := calculatePolygonArea polygon1
    let area2 := calculatePolygonArea polygon2
    let intersectionArea := calculatePolygonArea intersection
    jsDiv intersectionArea (area1 + area2 - intersectionArea)

/-- Variant of `computeIntersection` guarded by the crossing condition the
clip algorithm guarantees at every call site: it falls back to a junk point
when `isInside s` and `isInside e` agree (a case never reached from
`clipPolygons`). -/
def computeIntersectionChecked (s e cS cE : Point) : Point :=
  if isInside s cS cE ≠ isInside e cS cE then computeIntersection s e cS cE else ⟨0, 0⟩

/-- `clipEdgeStep` with the guarded intersection routine. -/
def clipEdgeStepChecked (S eS eE : Point) (out : List Point) (E : Point) : List Point :=
  if isInside E eS eE then
    (if !isInside S eS eE then out ++ [computeIntersectionChecked S E eS eE] else out) ++ [E]
  else if isInside S eS eE then
    out ++ [computeIntersectionChecked S E eS eE]
  else
    out

/-- `clipOneEdge` with the guarded intersection routine. -/
def clipOneEdgeChecked (eS eE : Point) (inputList : List Point) : List Point :=
  match inputList.getLast? with
  | none => []
  | some S => inputList.foldl (clipEdgeStepChecked S eS eE) []

/-- `clipPolygons` with the guarded intersection routine. -/
def clipPolygonsChecked (subjectPolygon clipPoly : List Point) : List Point :=
  (clipPoly.zip (clipPoly.rotate 1)).foldl
    (fun outputList edge =>
      if outputList.isEmpty then [] else clipOneEdgeChecked edge.1 edge.2 outputList)
    subjectPolygon

/-- A candidate box as pushed by `detectOBB`: the corner array, the decoded
confidence and the decoded class index (the `debug` field carries no
behaviour and is omitted). -/
structure Box where
  corners : Quad
  confidence : ℚ
  classIndex : ℤ
deriving DecidableEq, Repr

/-- The ordering relation realised by the stable JavaScript sort with
comparator `(a, b) => b.confidence - a.confidence`: `a` may precede `b`
iff `a.confidence ≥ b.confidence`. -/
def confGE (a b : Box) : Prop := b.confidence ≤ a.confidence

instance : DecidableRel confGE :=
  fun a b => inferInstanceAs (Decidable (b.confidence ≤ a.confidence))

instance : IsTotal Box confGE := ⟨fun a b => le_total b.confidence a.confidence⟩

instance : IsTrans Box confGE := ⟨fun _ _ _ h1 h2 => le_trans h2 h1⟩

/-- The suppression test of the inner NMS loop: same `classIndex` and
`calculateOBBIoU(currentBox.corners, sortedBoxes[i].corners) > iouThreshold`. -/
def suppresses (cur b : Box) (t : ℚ) : Bool :=
  cur.classIndex == b.classIndex && (calculateOBBIoU cur.corners b.corners).gtQ t

/-- The `while (sortedBoxes.length > 0)` loop of `applyNMS`: shift the head
into the selection, then splice out every remaining box it suppresses. -/
def nmsLoop (t : ℚ) : List Box → List Box
  | [] => []
  | cur :: rest => cur :: nmsLoop t (rest.filter (fun b => !suppresses cur b t))
termination_by l => l.length
decreasing_by
  simp only [List.length_cons]
  exact Nat.lt_succ_of_le (List.length_filter_le _ _)

/-- `applyNMS(boxes, iouThreshold)` from the source: stable sort of a copy of
`boxes` by descending confidence, then the greedy suppression loop. -/
def applyNMS (boxes : List Box) (iouThreshold : ℚ) : List Box :=
  nmsLoop iouThreshold (List.insertionSort confGE boxes)

/-- `Math.max(...classScores)`: `-∞` on an empty score list, otherwise the
left fold of the binary maximum. -/
def jsMathMax : List ℚ → JsNum
  | [] => .negInf
  | h :: t => .fin (t.foldl max h)

/-- `classScores.indexOf(Math.max(...classScores))` from the decoder:
the first index holding the maximal score, `-1` when the list is empty
(`indexOf` misses `-∞` in a list of finite scores).  On a nonempty list the
maximum is attained, so `List.indexOf` never falls off the end. -/
def decodeClassIndex (classScores : List ℚ) : ℤ :=
  match jsMathMax classScores with
  | .fin m => (classScores.indexOf m : ℕ)
  | _ => -1

/-- `classScores[classIndex]` from the decoder: `none` models the JavaScript
`undefined` produced by a negative index. -/
def decodeConfidence (classScores : List ℚ) : Option ℚ :=
  let i := decodeClassIndex classScores
  if i < 0 then none else classScores.get? i.toNat

/-- `CLASS_NAMES[classIndex]`: `undefined` (modelled `none`) for an index
outside the array. -/
def lookupClassName (names : List String) (i : ℤ) : Option String :=
  if i < 0 then none else names.get? i.toNat

/-- The `classCounts` object after initialisation/reset: one key per class
name, in order, value `0` (duplicate names collapse to one key, as for a
JavaScript object). -/
def tallyInit (classNames : List String) : List (Option String × ℕ) :=
  classNames.foldl
    (fun acc n => if acc.any (fun kv => kv.1 == some n) then acc else acc ++ [(some n, 0)])
    []

/-- `classCounts[className] = (classCounts[className] || 0) + 1`: increment
an existing key in place, or append a fresh key (possibly the `undefined`
key) with count 1. -/
def bumpCount : List (Option String × ℕ) → Option String → List (Option String × ℕ)
  | [], key => [(key, 1)]
  | kv :: rest, key =>
      if kv.1 == key then (kv.1, kv.2 + 1) :: rest else kv :: bumpCount rest key

/-- The post-NMS per-class tally of `detectOBB` (reset to zero, then one
increment per surviving box under `CLASS_NAMES[box.classIndex]`). -/
def tallyCounts (classNames : List String) (boxes : List Box) : List (Option String × ℕ) :=
  boxes.foldl (fun counts b => bumpCount counts (lookupClassName classNames b.classIndex))
    (tallyInit classNames)

/-- `Object.values(classCounts).reduce((sum, count) => sum + count, 0)`. -/
def totalCount (counts : List (Option String × ℕ)) : ℕ :=
  (counts.map Prod.snd).sum

/-- The three array objects live during one `applyNMS` call: the caller's
`boxes` array, the working copy `sortedBoxes = [...boxes].sort(...)`, and the
result array `selectedBoxes`.  Every mutation of the source (`sort`, `shift`,
`splice`, `push`) acts on the field owning that array. -/
structure NMSArrays where
  boxesArr : List Box
  sortedArr : List Box
  selectedArr : List Box
deriving DecidableEq, Repr

/-- The NMS `while` loop as a state transformer on the three arrays:
`shift` pops the head of `sortedArr`, `push` appends it to `selectedArr`,
`splice` filters `sortedArr`; `boxesArr` is owned by the caller and no
statement of the loop writes to it. -/
def nmsLoopSt (t : ℚ) (st : NMSArrays) : NMSArrays :=
  match h : st.sortedArr with
  | [] => st
  | cur :: rest =>
      nmsLoopSt t
        { boxesArr := st.boxesArr
          sortedArr := rest.filter (fun b => !suppresses cur b t)
          selectedArr := st.selectedArr ++ [cur] }
termination_by st.sortedArr.length
decreasing_by
  simp only [h, List.length_cons]
  exact Nat.lt_succ_of_le (List.length_filter_le _ _)

/-- A whole `applyNMS` call in the array-state model: `[...boxes]` reads the
caller's array into a fresh copy, `sort` reorders that copy in place, then
the loop runs. -/
def applyNMSRun (boxes : List Box) (t : ℚ) : NMSArrays :=
  nmsLoopSt t ⟨boxes, List.insertionSort confGE boxes, []⟩

/-! ### Concrete inputs shared by several evaluations -/

/-- The 10×10 axis-aligned box centred at the origin, angle 0
(`cos 0 = 1`, `sin 0 = 0`). -/
def squareAt0 : Quad := convertToCorners 0 0 10 10 1 0

/-- The same 10×10 box shifted by `(5, 0)`. -/
def squareAt5 : Quad := convertToCorners 5 0 10 10 1 0

/-- A convex quadrilateral (a diamond) with rational corners, consistently
wound like the output of `convertToCorners`. -/
def diamondQ : Quad := ⟨⟨0, -7⟩, ⟨7, 0⟩, ⟨0, 7⟩, ⟨-7, 0⟩⟩

/-- A degenerate zero-area box: width and height 0, all corners at the
origin. -/
def degenQ : Quad := convertToCorners 0 0 0 0 1 0

/-- Candidate box around `diamondQ`, confidence 9/10, class 0. -/
def boxDia : Box := ⟨diamondQ, 9/10, 0⟩

/-- Candidate box around `squareAt0`, confidence 8/10, class 0. -/
def boxSq : Box := ⟨squareAt0, 8/10, 0⟩

/-! ### Lemmas about the greedy NMS loop -/

theorem nmsLoop_cons (t : ℚ) (cur : Box) (rest : List Box) :
    nmsLoop t (cur :: rest) =
      cur :: nmsLoop t (rest.filter (fun b => !suppresses cur b t)) := by
  simp [nmsLoop]

theorem nmsLoop_sublist (t : ℚ) : ∀ l : List Box, List.Sublist (nmsLoop t l) l := by
  have key : ∀ (n : ℕ) (l : List Box), l.length ≤ n → List.Sublist (nmsLoop t l) l := by
    intro n
    induction n with
    | zero =>
        intro l h
        rw [Nat.le_zero, List.length_eq_zero] at h
        subst h
        simp [nmsLoop]
    | succ n ih =>
        intro l h
        match l with
        | [] => simp [nmsLoop]
        | cur :: rest =>
            rw [nmsLoop_cons]
            refine List.Sublist.cons₂ cur ?_
            have h1 : (rest.filter (fun b => !suppresses cur b t)).length ≤ n :=
              le_trans (List.length_filter_le _ _) (Nat.succ_le_succ_iff.mp h)
            exact (ih _ h1).trans (List.filter_sublist rest)
  exact fun l => key l.length l le_rfl

theorem nmsLoop_pairwise (t : ℚ) :
    ∀ l : List Box, (nmsLoop t l).Pairwise (fun a b => suppresses a b t = false) := by
  have key : ∀ (n : ℕ) (l : List Box), l.length ≤ n →
      (nmsLoop t l).Pairwise (fun a b => suppresses a b t = false) := by
    intro n
    induction n with
    | zero =>
        intro l h
        rw [Nat.le_zero, List.length_eq_zero] at h
        subst h
        simp [nmsLoop]
    | succ n ih =>
        intro l h
        match l with
        | [] => simp [nmsLoop]
        | cur :: rest =>
            rw [nmsLoop_cons]
            have h1 : (rest.filter (fun b => !suppresses cur b t)).length ≤ n :=
              le_trans (List.length_filter_le _ _) (Nat.succ_le_succ_iff.mp h)
            refine List.Pairwise.cons ?_ (ih _ h1)
            intro b hb
            have hbf : b ∈ rest.filter (fun b => !suppresses cur b t) :=
              (nmsLoop_sublist t _).mem hb
            have := (List.mem_filter.mp hbf).2
            simpa using this
  exact fun l => key l.length l le_rfl

theorem nmsLoop_eq_self (t : ℚ) :
    ∀ l : List Box, l.Pairwise (fun a b => suppresses a b t = false) →
      nmsLoop t l = l := by
  intro l
  induction l with
  | nil => intro _; simp [nmsLoop]
  | cons cur rest ih =>
      intro hp
      have hhead := (List.pairwise_cons.mp hp).1
      have htail := (List.pairwise_cons.mp hp).2
      have hfil : rest.filter (fun b => !suppresses cur b t) = rest := by
        rw [List.filter_eq_self]
        intro b hb
        simp [hhead b hb]
      rw [nmsLoop_cons, hfil, ih htail]

theorem applyNMS_sorted (boxes : List Box) (t : ℚ) :
    (applyNMS boxes t).Sorted confGE :=
  (List.sorted_insertionSort confGE boxes).sublist
    (nmsLoop_sublist t (List.insertionSort confGE boxes))

/-! ### Claim theorems -/

/-- C1: the spec claims that a 10×10 axis-aligned box at the origin against
the same box shifted by `(5, 0)` has rotated IoU `50/150 = 1/3`.  The code
instead returns `0`: because the vertex `S` is never advanced in the clip
loop, the clipped "intersection" is the self-intersecting polygon
`[(0,0), (5,-5), (0,5), (5,5)]` whose shoelace area is `0`. -/
theorem iou_shifted_square_eq_zero :
    calculateOBBIoU squareAt0 squareAt5 = JsNum.fin 0 ∧
    clipPolygons squareAt0.toPolygon squareAt5.toPolygon =
      [⟨0, 0⟩, ⟨5, -5⟩, ⟨0, 5⟩, ⟨5, 5⟩] ∧
    JsNum.fin 0 ≠ JsNum.fin (1/3) := by
  with_unfolding_all decide

/-- C2 (counterexample): for the degenerate zero-area box (all four corners
at the origin) paired with itself, the denominator
`area(A) + area(B) - area(intersection)` is `0`, the clipped intersection is
nonempty, and `calculateOBBIoU` returns NaN — not the IoU `0` the claim
asserts. -/
theorem iou_degenerate_nan :
    calculateOBBIoU degenQ degenQ = JsNum.nan ∧
    calculatePolygonArea degenQ.toPolygon + calculatePolygonArea degenQ.toPolygon -
      calculatePolygonArea (clipPolygons degenQ.toPolygon degenQ.toPolygon) = 0 ∧
    JsNum.nan ≠ JsNum.fin 0 := by
  with_unfolding_all decide

/-- C2 (amended): when the zero-denominator edge case is reached with a
nonempty clipped intersection, `calculateOBBIoU` returns a non-finite value
(NaN when the intersection area is also `0`, `+∞` otherwise) — the
division-by-zero guard described by the spec is absent from the code; only
an empty intersection produces the early return `0`. -/
theorem calculateOBBIoU_unguarded_div_zero (q1 q2 : Quad)
    (hne : (clipPolygons q1.toPolygon q2.toPolygon).length ≠ 0)
    (hzero : calculatePolygonArea q1.toPolygon + calculatePolygonArea q2.toPolygon -
      calculatePolygonArea (clipPolygons q1.toPolygon q2.toPolygon) = 0) :
    calculateOBBIoU q1 q2 = JsNum.nan ∨ calculateOBBIoU q1 q2 = JsNum.posInf := by
  have hx : 0 ≤ calculatePolygonArea (clipPolygons q1.toPolygon q2.toPolygon) := by
    unfold calculatePolygonArea
    positivity
  simp only [calculateOBBIoU, if_neg hne, hzero, jsDiv]
  by_cases hpos : 0 < calculatePolygonArea (clipPolygons q1.toPolygon q2.toPolygon)
  · right
    simp [hpos]
  · left
    have h0 : calculatePolygonArea (clipPolygons q1.toPolygon q2.toPolygon) = 0 :=
      le_antisymm (not_lt.mp hpos) hx
    simp [h0]

/-- C2 (witness): the amended theorem applied to the degenerate box. -/
theorem calculateOBBIoU_unguarded_div_zero_witness :
    calculateOBBIoU degenQ degenQ = JsNum.nan ∨ calculateOBBIoU degenQ degenQ = JsNum.posInf :=
  calculateOBBIoU_unguarded_div_zero degenQ degenQ
    (by with_unfolding_all decide) (by with_unfolding_all decide)

/-- C5: rotated IoU is NOT symmetric.  For the 10×10 square at the origin
and a convex diamond, clipping the square against the diamond and the
diamond against the square give different degenerate polygons, so the two
IoU values differ (`53/1069` versus `7/191`). -/
theorem iou_not_symmetric :
    calculateOBBIoU squareAt0 diamondQ = JsNum.fin (53/1069) ∧
    calculateOBBIoU diamondQ squareAt0 = JsNum.fin (7/191) ∧
    calculateOBBIoU squareAt0 diamondQ ≠ calculateOBBIoU diamondQ squareAt0 := by
  with_unfolding_all decide

/-- C6: rotated NMS is idempotent: the output list is sorted by
non-increasing confidence and pairwise free of suppression, so running
`applyNMS` on its own output (with the same threshold) leaves it unchanged. -/
theorem applyNMS_idempotent (boxes : List Box) (t : ℚ) :
    applyNMS (applyNMS boxes t) t = applyNMS boxes t := by
  have hsorted : (applyNMS boxes t).Sorted confGE := applyNMS_sorted boxes t
  show nmsLoop t (List.insertionSort confGE (applyNMS boxes t)) = applyNMS boxes t
  rw [List.Sorted.insertionSort_eq hsorted]
  exact nmsLoop_eq_self t _ (nmsLoop_pairwise t _)

/-- C3 (amended): in the NMS output, for any retained box accepted BEFORE
another retained box of the same class, the rotated IoU of the earlier
against the later does not exceed the threshold.  (The unordered version of
the claim fails because `calculateOBBIoU` is asymmetric; see the
counterexample.) -/
theorem applyNMS_no_directed_suppression (boxes : List Box) (t : ℚ) :
    (applyNMS boxes t).Pairwise
      (fun a b => a.classIndex = b.classIndex →
        (calculateOBBIoU a.corners b.corners).gtQ t = false) := by
  refine (nmsLoop_pairwise t _).imp ?_
  intro a b hab
  intro hclass
  simpa [suppresses, hclass] using hab

/-- C3 (witness): the amended pairwise property at a concrete input with two
same-class boxes that both survive. -/
theorem applyNMS_no_directed_suppression_witness :
    (applyNMS [boxDia, boxSq] (1/25)).Pairwise
      (fun a b => a.classIndex = b.classIndex →
        (calculateOBBIoU a.corners b.corners).gtQ (1/25) = false) :=
  applyNMS_no_directed_suppression [boxDia, boxSq] (1/25)

/-- C3 (counterexample): with threshold `t = 1/25`, the NMS output retains
both `boxDia` and `boxSq`, which share a class, yet the rotated IoU of the
later-accepted box against the earlier one (`53/1069 > 1/25`) exceeds the
threshold — so the output DOES contain two same-class boxes whose rotated
IoU exceeds `t`. -/
theorem applyNMS_retains_high_iou_pair :
    applyNMS [boxDia, boxSq] (1/25) = [boxDia, boxSq] ∧
    boxDia.classIndex = boxSq.classIndex ∧
    (calculateOBBIoU boxSq.corners boxDia.corners).gtQ (1/25) = true := by
  with_unfolding_all decide

/-- C9: every box in the NMS output comes from the input list, and the
output is ordered by non-increasing confidence. -/
theorem applyNMS_mem_and_sorted (boxes : List Box) (t : ℚ) :
    (∀ b, b ∈ applyNMS boxes t → b ∈ boxes) ∧ (applyNMS boxes t).Sorted confGE := by
  constructor
  · intro b hb
    have hs : b ∈ List.insertionSort confGE boxes :=
      (nmsLoop_sublist t (List.insertionSort confGE boxes)).mem hb
    exact (List.mem_insertionSort confGE).mp hs
  · exact applyNMS_sorted boxes t

/-- C9 (witness): membership and sortedness at a concrete input. -/
theorem applyNMS_mem_and_sorted_witness :
    boxDia ∈ ([boxDia, boxSq] : List Box) ∧
    List.Sorted confGE (applyNMS [boxDia, boxSq] (1/25)) :=
  ⟨(applyNMS_mem_and_sorted [boxDia, boxSq] (1/25)).1 boxDia
      (by with_unfolding_all decide),
   (applyNMS_mem_and_sorted [boxDia, boxSq] (1/25)).2⟩

/-! ### Decoder argmax lemmas (C7) -/

theorem indexOf_le_of_get? :
    ∀ (l : List ℚ) (a : ℚ) (n : ℕ), l.get? n = some a → l.indexOf a ≤ n := by
  intro l
  induction l with
  | nil => intro a n h; simp at h
  | cons b bs ih =>
      intro a n h
      by_cases hba : b = a
      · rw [List.indexOf_cons_eq bs hba]
        exact Nat.zero_le n
      · match n with
        | 0 =>
            rw [List.get?_cons_zero] at h
            exact absurd (Option.some.inj h) hba
        | n + 1 =>
            rw [List.get?_cons_succ] at h
            rw [List.indexOf_cons_ne bs hba]
            exact Nat.succ_le_succ (ih a n h)

/-- C7: when the class-score vector has (at least) two positions `i < j`
tied at the maximum reported by `Math.max`, the decoder's class index is the
FIRST index attaining that maximum — in particular it is at most `i` and no
smaller index attains the maximum — and the decoded confidence is exactly
the maximal score. -/
theorem decodeClassIndex_first_max (scores : List ℚ) (m : ℚ) (i j : ℕ)
    (hm : jsMathMax scores = JsNum.fin m)
    (hi : scores.get? i = some m) (hj : scores.get? j = some m) (hij : i < j) :
    ∃ k : ℕ, decodeClassIndex scores = (k : ℤ) ∧ k ≤ i ∧
      scores.get? k = some m ∧ (∀ l, l < k → scores.get? l ≠ some m) ∧
      decodeConfidence scores = some m := by
  have hmem : m ∈ scores := by
    have := List.get?_mem hi
    exact this
  refine ⟨scores.indexOf m, ?_, ?_, ?_, ?_, ?_⟩
  · unfold decodeClassIndex
    rw [hm]
  · exact indexOf_le_of_get? scores m i hi
  · exact List.indexOf_get? hmem
  · intro l hl hcontra
    exact absurd (indexOf_le_of_get? scores m l hcontra) (Nat.not_le_of_lt hl)
  · unfold decodeConfidence
    have hidx : decodeClassIndex scores = (scores.indexOf m : ℤ) := by
      unfold decodeClassIndex
      rw [hm]
    rw [hidx]
    have hnonneg : ¬((scores.indexOf m : ℤ) < 0) := by
      exact Int.not_lt.mpr (Int.natCast_nonneg _)
    rw [if_neg hnonneg, Int.toNat_natCast]
    exact List.indexOf_get? hmem

/-- C7 (witness): the decoder at the concrete tied row `[1/2, 3/4, 3/4]`. -/
theorem decodeClassIndex_first_max_witness :
    ∃ k : ℕ, decodeClassIndex [1/2, 3/4, 3/4] = (k : ℤ) ∧ k ≤ 1 ∧
      ([1/2, 3/4, 3/4] : List ℚ).get? k = some (3/4) ∧
      (∀ l, l < k → ([1/2, 3/4, 3/4] : List ℚ).get? l ≠ some (3/4)) ∧
      decodeConfidence [1/2, 3/4, 3/4] = some (3/4) :=
  decodeClassIndex_first_max [1/2, 3/4, 3/4] (3/4) 1 2
    (by with_unfolding_all decide) (by with_unfolding_all decide)
    (by with_unfolding_all decide) (by with_unfolding_all decide)

/-! ### Tally lemmas (C4) -/

theorem totalCount_bumpCount (counts : List (Option String × ℕ)) (key : Option String) :
    totalCount (bumpCount counts key) = totalCount counts + 1 := by
  induction counts with
  | nil => simp [bumpCount, totalCount]
  | cons kv rest ih =>
      by_cases hk : kv.1 == key
      · simp [bumpCount, hk, totalCount]
        ring
      · simp [bumpCount, hk, totalCount] at ih ⊢
        omega

theorem totalCount_tallyInit (classNames : List String) :
    totalCount (tallyInit classNames) = 0 := by
  have key : ∀ (l : List String) (acc : List (Option String × ℕ)),
      (∀ kv ∈ acc, kv.2 = 0) →
      totalCount (l.foldl
        (fun acc n =>
          if acc.any (fun kv => kv.1 == some n) then acc else acc ++ [(some n, 0)]) acc) = 0 := by
    intro l
    induction l with
    | nil =>
        intro acc hacc
        simp only [List.foldl_nil]
        unfold totalCount
        rw [List.sum_eq_zero]
        intro x hx
        rcases List.mem_map.mp hx with ⟨kv, hkv, rfl⟩
        exact hacc kv hkv
    | cons n ns ih =>
        intro acc hacc
        simp only [List.foldl_cons]
        by_cases hmem : acc.any (fun kv => kv.1 == some n)
        · rw [if_pos hmem]
          exact ih acc hacc
        · rw [if_neg hmem]
          refine ih _ ?_
          intro kv hkv
          rcases List.mem_append.mp hkv with h | h
          · exact hacc kv h
          · simp at h
            rw [h]
  exact key classNames [] (by simp)

/-- C4 (amended): the per-class tally counts EVERY surviving box exactly
once — a box whose `classIndex` has no defined label is tallied under the
`undefined` key (and hence included in the total count) rather than being
skipped; the tally is total and never throws. -/
theorem tallyCounts_total (classNames : List String) (boxes : List Box) :
    totalCount (tallyCounts classNames boxes) = boxes.length := by
  have key : ∀ (bs : List Box) (acc : List (Option String × ℕ)),
      totalCount (bs.foldl
        (fun counts b => bumpCount counts (lookupClassName classNames b.classIndex)) acc) =
        totalCount acc + bs.length := by
    intro bs
    induction bs with
    | nil => intro acc; simp
    | cons b rest ih =>
        intro acc
        simp only [List.foldl_cons, List.length_cons]
        rw [ih, totalCount_bumpCount]
        omega
  unfold tallyCounts
  rw [key, totalCount_tallyInit]
  omega

/-- C4 (counterexample): a surviving box with `classIndex = 1` while only
one class label exists is NOT skipped: it is counted under the `undefined`
key (`none`), and the total count becomes `1` instead of the `0` the claim
("contributes to no class count") would give. -/
theorem tally_counts_undefined_key :
    tallyCounts ["plane"] [⟨squareAt0, 1/2, 1⟩] = [(some "plane", 0), (none, 1)] ∧
    totalCount (tallyCounts ["plane"] [⟨squareAt0, 1/2, 1⟩]) ≠ 0 := by
  with_unfolding_all decide

/-! ### Clip-guard lemmas (C8) -/

theorem clipEdgeStep_eq_checked (S eS eE : Point) (out : List Point) (E : Point) :
    clipEdgeStep S eS eE out E = clipEdgeStepChecked S eS eE out E := by
  unfold clipEdgeStep clipEdgeStepChecked computeIntersectionChecked
  by_cases hE : isInside E eS eE <;> by_cases hS : isInside S eS eE <;> simp [hE, hS]

theorem clipOneEdge_eq_checked (eS eE : Point) (inputList : List Point) :
    clipOneEdge eS eE inputList = clipOneEdgeChecked eS eE inputList := by
  unfold clipOneEdge clipOneEdgeChecked
  have hfun : ∀ S : Point, clipEdgeStep S eS eE = clipEdgeStepChecked S eS eE := by
    intro S
    funext out E
    exact clipEdgeStep_eq_checked S eS eE out E
  cases inputList.getLast? with
  | none => rfl
  | some S => simp only [hfun]

theorem clipPolygons_eq_checked (subject clip : List Point) :
    clipPolygons subject clip = clipPolygonsChecked subject clip := by
  unfold clipPolygons clipPolygonsChecked
  have hfun : (fun (outputList : List Point) (edge : Point × Point) =>
        if outputList.isEmpty then [] else clipOneEdge edge.1 edge.2 outputList) =
      (fun (outputList : List Point) (edge : Point × Point) =>
        if outputList.isEmpty then [] else clipOneEdgeChecked edge.1 edge.2 outputList) := by
    funext outputList edge
    rw [clipOneEdge_eq_checked]
  rw [hfun]

/-- C8: `computeIntersection` is reached from the clipping loop only under
the crossing guard `isInside S ≠ isInside E` (formalised: replacing it with
a variant that refuses to divide unless the guard holds leaves
`clipPolygons` unchanged on all inputs), and under that guard the 2×2
determinant denominator of the intersection formula is provably nonzero, so
the division in `computeIntersection` never divides by zero when called
from `clipPolygons`. -/
theorem clip_calls_intersection_guarded :
    (∀ subject clip : List Point, clipPolygons subject clip = clipPolygonsChecked subject clip) ∧
    (∀ s e cS cE : Point, isInside s cS cE ≠ isInside e cS cE →
      intersectionDenom s e cS cE ≠ 0) := by
  constructor
  · exact clipPolygons_eq_checked
  · intro s e cS cE hne
    have hd : intersectionDenom s e cS cE =
        ((cE.x - cS.x) * (e.y - cS.y) - (cE.y - cS.y) * (e.x - cS.x)) -
        ((cE.x - cS.x) * (s.y - cS.y) - (cE.y - cS.y) * (s.x - cS.x)) := by
      unfold intersectionDenom
      ring
    unfold isInside at hne
    by_cases hs : 0 ≤ (cE.x - cS.x) * (s.y - cS.y) - (cE.y - cS.y) * (s.x - cS.x) <;>
      by_cases he : 0 ≤ (cE.x - cS.x) * (e.y - cS.y) - (cE.y - cS.y) * (e.x - cS.x)
    · simp [hs, he] at hne
    · rw [hd]
      intro hzero
      have := not_le.mp he
      linarith
    · rw [hd]
      intro hzero
      have := not_le.mp hs
      linarith
    · simp [hs, he] at hne

/-- C8 (witness): a concrete crossing segment for which the guard holds and
the denominator is nonzero. -/
theorem clip_calls_intersection_guarded_witness :
    isInside ⟨0, 0⟩ ⟨-1, 5⟩ ⟨1, 5⟩ ≠ isInside ⟨0, 10⟩ ⟨-1, 5⟩ ⟨1, 5⟩ ∧
    intersectionDenom ⟨0, 0⟩ ⟨0, 10⟩ ⟨-1, 5⟩ ⟨1, 5⟩ ≠ 0 :=
  ⟨by with_unfolding_all decide,
   clip_calls_intersection_guarded.2 ⟨0, 0⟩ ⟨0, 10⟩ ⟨-1, 5⟩ ⟨1, 5⟩
     (by with_unfolding_all decide)⟩

/-! ### Array-frame lemmas (C10) -/

theorem nmsLoopSt_boxesArr (t : ℚ) :
    ∀ st : NMSArrays, (nmsLoopSt t st).boxesArr = st.boxesArr := by
  have key : ∀ (n : ℕ) (st : NMSArrays), st.sortedArr.length ≤ n →
      (nmsLoopSt t st).boxesArr = st.boxesArr := by
    intro n
    induction n with
    | zero =>
        intro st h
        rw [Nat.le_zero, List.length_eq_zero] at h
        rw [nmsLoopSt]
        split
        · rfl
        · rename_i cur rest heq
          rw [h] at heq
          exact absurd heq (List.noConfusion)
    | succ n ih =>
        intro st h
        rw [nmsLoopSt]
        split
        · rfl
        · rename_i cur rest heq
          have hlen : (rest.filter (fun b => !suppresses cur b t)).length ≤ n := by
            have : rest.length + 1 ≤ n + 1 := by
              rw [← List.length_cons cur rest, ← heq]
              exact h
            exact le_trans (List.length_filter_le _ _) (Nat.succ_le_succ_iff.mp this)
          exact ih _ hlen
  exact fun st => key st.sortedArr.length st le_rfl

theorem nmsLoopSt_selectedArr (t : ℚ) :
    ∀ st : NMSArrays, (nmsLoopSt t st).selectedArr =
      st.selectedArr ++ nmsLoop t st.sortedArr := by
  have key : ∀ (n : ℕ) (st : NMSArrays), st.sortedArr.length ≤ n →
      (nmsLoopSt t st).selectedArr = st.selectedArr ++ nmsLoop t st.sortedArr := by
    intro n
    induction n with
    | zero =>
        intro st h
        rw [Nat.le_zero, List.length_eq_zero] at h
        rw [nmsLoopSt]
        split
        · rename_i heq
          rw [heq]
          simp [nmsLoop]
        · rename_i cur rest heq
          rw [h] at heq
          exact absurd heq (List.noConfusion)
    | succ n ih =>
        intro st h
        rw [nmsLoopSt]
        split
        · rename_i heq
          rw [heq]
          simp [nmsLoop]
        · rename_i cur rest heq
          have hlen : (rest.filter (fun b => !suppresses cur b t)).length ≤ n := by
            have : rest.length + 1 ≤ n + 1 := by
              rw [← List.length_cons cur rest, ← heq]
              exact h
            exact le_trans (List.length_filter_le _ _) (Nat.succ_le_succ_iff.mp this)
          rw [ih _ hlen]
          simp only [heq, nmsLoop_cons]
          rw [List.append_assoc]
          rfl
  exact fun st => key st.sortedArr.length st le_rfl

/-- C10: `applyNMS` never mutates the caller's `boxes` array: in the
array-state model where every mutating statement (`sort`, `shift`, `splice`,
`push`) acts on the array object it is called on, the caller's array is
byte-for-byte the input list when the call returns, while the result array
holds exactly the functional NMS output computed from the spread copy. -/
theorem applyNMSRun_frame (boxes : List Box) (t : ℚ) :
    (applyNMSRun boxes t).boxesArr = boxes ∧
    (applyNMSRun boxes t).selectedArr = applyNMS boxes t := by
  constructor
  · exact nmsLoopSt_boxesArr t _
  · unfold applyNMSRun applyNMS
    rw [nmsLoopSt_selectedArr]
    simp

end YoloOBB
